import Mathlib

/-!
Verification development for a small Express backend storing JSON records
in flat files.  The JavaScript source is embedded shallowly: JS objects
become association lists over a JSON value type (first binding wins, so
object spread is modelled by list append with the later source in front),
and each request handler becomes a pure Lean function over the loaded
collection.  Timestamps produced by successive Date calls inside one
request are passed in as explicit string parameters.
-/

/-- JSON-style runtime values.  The constructor `undef` stands for the JS
value undefined, which arises when a missing property is read and then
stored back into an object literal. -/
inductive Val where
  | undef : Val
  | str : String → Val
  | bool : Bool → Val
  | null : Val
  | num : Int → Val
  | arr : List Val → Val
  | obj : List (String × Val) → Val

/-- A JS object, as an association list of field bindings.  The binding
closest to the head of the list wins, so the spread expression listing
sources a then b is embedded as the list b ++ a. -/
abbrev JsObj := List (String × Val)

/-- Field lookup on a JS object: first binding for the key, if any. -/
def getV : JsObj → String → Option Val
  | [], _ => none
  | (k2, v) :: rest, k => if k2 = k then some v else getV rest k

/-- Reading a possibly absent property yields the JS value undefined. -/
def toUndef : Option Val → Val
  | none => Val.undef
  | some v => v

/-- Property read as performed by JS member access on an object. -/
def propV (r : JsObj) (k : String) : Val :=
  toUndef (getV r k)

/-- Observable value of a property: for reads, an absent key and a key
bound to undefined are indistinguishable, and JSON serialization drops
keys bound to undefined. -/
def jsGet (r : JsObj) (k : String) : Option Val :=
  match getV r k with
  | some Val.undef => none
  | v => v

/-- JS truthiness of a value. -/
def truthy : Val → Bool
  | .undef => false
  | .str s => !(s == "")
  | .bool b => b
  | .null => false
  | .num n => !(n == 0)
  | .arr _ => true
  | .obj _ => true

/-- Strict equality of a JS value with a string: true exactly when the
value is that string (strict equality across types is false, and objects
never compare equal to strings). -/
def valIsStr (v : Val) (s : String) : Bool :=
  match v with
  | .str t => t == s
  | _ => false

/-- String conversion of a value appearing as an array element inside the
default Array toString: null and undefined become the empty string, and
nested arrays are joined recursively with commas. -/
def jsArrElemStr : Val → String
  | .null => ""
  | .undef => ""
  | .str s => s
  | .bool b => if b then "true" else "false"
  | .num n => toString n
  | .obj _ => "[object Object]"
  | .arr vs => String.intercalate "," (vs.attach.map fun p => jsArrElemStr p.1)
decreasing_by
  have := List.sizeOf_lt_of_mem p.2
  simp only [Val.arr.sizeOf_spec]
  omega

/-- String conversion as performed inside a JS template literal. -/
def jsToStr : Val → String
  | .undef => "undefined"
  | .str s => s
  | .bool b => if b then "true" else "false"
  | .null => "null"
  | .num n => toString n
  | .obj _ => "[object Object]"
  | .arr vs => String.intercalate "," (vs.map jsArrElemStr)

/-- Identity key of a submission, the template literal joining username,
email and submittedAt with pipe characters (source lines 416 to 418). -/
def identityKey (sub : JsObj) : String :=
  jsToStr (propV sub "username") ++ "|" ++ jsToStr (propV sub "email") ++ "|"
    ++ jsToStr (propV sub "submittedAt")

/-- The JS expression editedBy or-else the string unknown, for a string
input: the empty string is falsy and falls through to unknown. -/
def orUnknown (editedBy : String) : String :=
  if editedBy == "" then "unknown" else editedBy

/-- One request to the edit endpoint: the request body fields at their
documented types, plus the timestamps the successive Date calls inside
the handler produce. -/
structure EditCall where
  editedData : JsObj
  facilitatorComment : Option String
  editedBy : String
  now1 : String
  now2 : String
  nowComment : String

/-- Predicate of source line 416: the submission whose identity key
equals the requested originalSubmissionId. -/
def isOriginalFor (id : String) (sub : JsObj) : Bool :=
  identityKey sub == id

/-- Predicate of source line 425: an edited version recorded for the
requested originalSubmissionId. -/
def isExistingEditedFor (id : String) (sub : JsObj) : Bool :=
  truthy (propV sub "isEditedVersion") && valIsStr (propV sub "originalSubmissionId") id

/-- Predicate of source line 430: an edited version addressed directly by
its own identity key. -/
def isEditingEditedVersionFor (id : String) (sub : JsObj) : Bool :=
  truthy (propV sub "isEditedVersion") && (identityKey sub == id)

/-- Record built when an edited version already exists (source lines 439
to 445): spread of the original, then the existing edited version, then
the edited data, then fresh editTimestamp and editedBy. -/
def updatedExistingEditedRecord (originalSubmission existingEditedVersion : JsObj)
    (c : EditCall) : JsObj :=
  ("editTimestamp", Val.str c.now1) :: ("editedBy", Val.str (orUnknown c.editedBy)) ::
    (c.editedData ++ existingEditedVersion ++ originalSubmission)

/-- Record built when the edit target is itself an edited version (source
lines 454 to 459). -/
def updatedEditOfEditRecord (target : JsObj) (c : EditCall) : JsObj :=
  ("editTimestamp", Val.str c.now1) :: ("editedBy", Val.str (orUnknown c.editedBy)) ::
    (c.editedData ++ target)

/-- Record built for a brand new edited version (source lines 468 to
476): spread of the original, then the edited data, then the literal
fields submittedAt, isEditedVersion, originalSubmissionId, editedBy and
editTimestamp, which override both spreads. -/
def newEditedVersionRecord (originalSubmission : JsObj) (id : String) (c : EditCall) : JsObj :=
  ("submittedAt", Val.str c.now1) :: ("isEditedVersion", Val.bool true) ::
    ("originalSubmissionId", Val.str id) :: ("editedBy", Val.str (orUnknown c.editedBy)) ::
    ("editTimestamp", Val.str c.now2) :: (c.editedData ++ originalSubmission)

/-- Model of the JS String trim call: drop whitespace characters from
both ends (JS also trims some unicode spaces; only ASCII whitespace is
modelled). -/
def jsTrim (s : String) : String :=
  String.mk (((s.data.dropWhile Char.isWhitespace).reverse.dropWhile
    Char.isWhitespace).reverse)

/-- Facilitator comment attachment (source lines 487 to 492): applied to
the in-memory result object after the store has been written. -/
def attachFacilitatorComment (r : JsObj) (c : EditCall) : JsObj :=
  match c.facilitatorComment with
  | some fc =>
    if fc != "" && jsTrim fc != "" then
      ("facilitatorComment", Val.str fc) ::
        ("facilitatorCommentTimestamp", Val.str c.nowComment) ::
        ("facilitatorCommentBy", Val.str (orUnknown c.editedBy)) :: r
    else r
  | none => r

/-- Outcome of the edit endpoint once the collection has been read:
either a 404 because no submission matches the identity key, or success
carrying the collection as written to disk, the response-side result
object (with any facilitator comment attached), and the isNewVersion
response flag. -/
inductive EditOutcome where
  | notFound : EditOutcome
  | ok : List JsObj → JsObj → Bool → EditOutcome

/-- The edit reconciliation engine, source lines 408 to 499, as a pure
function of the loaded collection and the request. -/
def saveEditedSubmission (store : List JsObj) (id : String) (c : EditCall) : EditOutcome :=
  match store.find? (isOriginalFor id) with
  | none => .notFound
  | some originalSubmission =>
    match store.find? (isExistingEditedFor id) with
    | some existingEditedVersion =>
      let newSubmission := updatedExistingEditedRecord originalSubmission existingEditedVersion c
      let existingIndex := store.findIdx (isExistingEditedFor id)
      .ok (store.set existingIndex newSubmission) (attachFacilitatorComment newSubmission c) false
    | none =>
      match store.find? (isEditingEditedVersionFor id) with
      | some target =>
        let newSubmission := updatedEditOfEditRecord target c
        let existingIndex := store.findIdx (isEditingEditedVersionFor id)
        .ok (store.set existingIndex newSubmission) (attachFacilitatorComment newSubmission c)
          false
      | none =>
        let newSubmission := newEditedVersionRecord originalSubmission id c
        .ok (store ++ [newSubmission]) (attachFacilitatorComment newSubmission c) true

/-- Collection on disk after one edit request: unchanged when the request
fails with 404 (the write at source line 484 is never reached), otherwise
the collection the handler writes. -/
def stepStore (store : List JsObj) (id : String) (c : EditCall) : List JsObj :=
  match saveEditedSubmission store id c with
  | .notFound => store
  | .ok saved _ _ => saved

/-- Collection on disk after a sequence of edit requests against the same
originalSubmissionId. -/
def runEdits (store : List JsObj) (id : String) : List EditCall → List JsObj
  | [] => store
  | c :: cs => runEdits (stepStore store id c) id cs

/-- Number of records that are edited versions for the given id. -/
def editedCountFor (id : String) (store : List JsObj) : Nat :=
  store.countP (isExistingEditedFor id)

/-- Embedding of JS object spread with two sources: later fields win, so
the later source sits in front for first-binding-wins lookup. -/
def spread (a b : JsObj) : JsObj := b ++ a

/-- State of a backing file: absent covers both a missing file and an
unreadable one (the read call throws either way), content carries the
raw text of a readable file. -/
inductive FileState where
  | absent : FileState
  | content : String → FileState

/-- Loader of the focus group collection, source lines 62 to 69: any
exception from the read or the parse is caught and the empty collection
is returned.  The JSON parser is passed in abstractly; a parse result of
none models a parse exception. -/
def loadFocusGroupSubmissions (parse : String → Option (List JsObj))
    (f : FileState) : List JsObj :=
  match f with
  | .absent => []
  | .content s =>
    match parse s with
    | none => []
    | some subs => subs

/-- The edit endpoint as entered from the backing file, source lines 408
to 505.  Line 413 reads and parses the file directly, with no catch of
its own, so a missing, unreadable or unparseable file aborts the request:
the surrounding try block turns the exception into a generic 500
response, modelled as none. -/
def saveEditedSubmissionOnFile (parse : String → Option (List JsObj))
    (f : FileState) (id : String) (c : EditCall) : Option EditOutcome :=
  match f with
  | .absent => none
  | .content s =>
    match parse s with
    | none => none
    | some store => some (saveEditedSubmission store id c)

/-- Outcome of the update endpoint for individual case studies. -/
inductive UpdateOutcome where
  | notFound : UpdateOutcome
  | forbidden : UpdateOutcome
  | ok : List JsObj → JsObj → UpdateOutcome

/-- Record built by the update handler (source lines 160 to 166): all
previous fields, overridden by the supplied fields, with id and
submittedAt reassigned to their previous values and updatedAt
stamped. -/
def updatedCaseRecord (old updateFields : JsObj) (now : String) : JsObj :=
  ("id", propV old "id") :: ("submittedAt", propV old "submittedAt") ::
    ("updatedAt", Val.str now) :: (updateFields ++ old)

/-- The update handler PUT /api/case-studies/:id, source lines 140 to
179: find the record by id, refuse unless its status is the string
pending, then overwrite every supplied field while pinning id and
submittedAt to their previous values and stamping updatedAt. -/
def updateCaseStudy (store : List JsObj) (id : String) (updateFields : JsObj)
    (now : String) : UpdateOutcome :=
  match store.find? (fun s => valIsStr (propV s "id") id) with
  | none => .notFound
  | some old =>
    if !(valIsStr (propV old "status") "pending") then .forbidden
    else
      let updated := updatedCaseRecord old updateFields now
      let idx := store.findIdx (fun s => valIsStr (propV s "id") id)
      .ok (store.set idx updated) updated

/-- The fixed exclusion set of predefined tension labels, source lines
586 to 595. -/
def predefinedTensions : List String :=
  ["Privacy vs. Transparency",
   "Accuracy vs. Fairness",
   "Autonomy vs. Safety",
   "Efficiency vs. Explainability",
   "Innovation vs. Regulation",
   "Individual vs. Collective Good",
   "Accessibility vs. Complexity",
   "Customization vs. Standardization"]

/-- Property read on an arbitrary value: throws a TypeError on null and
undefined, reads the field on an object, and yields undefined on other
primitives and on arrays (none of the fields read by the history
handlers is a built-in array property). -/
def readProp : Val → String → Except Unit Val
  | .null, _ => .error ()
  | .undef, _ => .error ()
  | .obj r, k => .ok (propV r k)
  | _, _ => .ok Val.undef

/-- Strict-equality membership of a value in a list of strings, the JS
Array includes check against a list of string literals. -/
def includesStr (l : List String) (v : Val) : Bool :=
  match v with
  | .str s => l.contains s
  | _ => false

/-- SameValueZero comparison as used by JS Set membership, restricted to
the values that can occur here: primitives compare structurally; arrays
and objects compare by reference, and since JSON parsing always produces
fresh references a stored array or object is never encountered again, so
such values never compare equal. -/
def sameValueZero : Val → Val → Bool
  | .undef, .undef => true
  | .null, .null => true
  | .str a, .str b => a == b
  | .bool a, .bool b => a == b
  | .num a, .num b => a == b
  | _, _ => false

/-- Membership of a value in the seen set of the history scan. -/
def seenHas (seen : List Val) (v : Val) : Bool :=
  seen.any (fun w => sameValueZero w v)

/-- One entry of a history report. -/
structure TensionDetail where
  value : Val
  definition : Val
  source : String
  submissionDate : Val

/-- Scan of one tension entry, source lines 611 to 624: include it only
when its value field is truthy, not already seen, and not one of the
predefined tension labels; a thrown TypeError propagates. -/
def scanTensionItem (src : String) (subDate : Val)
    (st : List Val × List TensionDetail) (tensionItem : Val) :
    Except Unit (List Val × List TensionDetail) :=
  match readProp tensionItem "value" with
  | .error e => .error e
  | .ok v =>
    if truthy v && !(seenHas st.1 v) && !(includesStr predefinedTensions v) then
      match readProp tensionItem "definition" with
      | .error e => .error e
      | .ok d =>
        .ok (v :: st.1,
          st.2 ++ [{ value := v, definition := if truthy d then d else Val.str "",
                     source := src, submissionDate := subDate }])
    else .ok st

/-- Scan of one case item, source lines 609 to 626: visit its tensions
when that field holds an array. -/
def scanCaseItem (src : String) (subDate : Val)
    (st : List Val × List TensionDetail) (caseItem : Val) :
    Except Unit (List Val × List TensionDetail) :=
  match readProp caseItem "tensions" with
  | .error e => .error e
  | .ok t =>
    match t with
    | .arr ts => ts.foldlM (scanTensionItem src subDate) st
    | _ => .ok st

/-- Scan of one submission, source lines 607 to 628: visit its cases
when that field holds an array. -/
def scanSub (src : String) (st : List Val × List TensionDetail) (sub : JsObj) :
    Except Unit (List Val × List TensionDetail) :=
  match propV sub "cases" with
  | .arr cs => cs.foldlM (scanCaseItem src (propV sub "submittedAt")) st
  | _ => .ok st

/-- The tension history handler GET /api/user-tension-history/:email,
source lines 581 to 669, over the two loaded collections: focus group
submissions of the user first, then individual submissions, sharing one
seen set; an exception anywhere yields a 500 response, modelled as
error. -/
def userTensionHistory (focusGroupData individualData : List JsObj)
    (email : String) : Except Unit (List TensionDetail) :=
  match (focusGroupData.filter (fun sub => valIsStr (propV sub "email") email)).foldlM
      (scanSub "focus-group") (([], []) : List Val × List TensionDetail) with
  | .error e => .error e
  | .ok st1 =>
    match (individualData.filter (fun sub =>
        valIsStr (propV sub "author") email || valIsStr (propV sub "email") email)).foldlM
        (scanSub "individual") st1 with
    | .error e => .error e
    | .ok st2 => .ok st2.2

/-! Helper lemmas about the object model and list operations. -/

theorem getV_append (a b : JsObj) (k : String) :
    getV (a ++ b) k = (getV a k).or (getV b k) := by
  induction a with
  | nil => simp [getV]
  | cons p rest ih =>
    by_cases h : p.1 = k
    · simp [getV, h]
    · simp [getV, h, ih]

theorem countP_set_of_countP_zero {α : Type} (p : α → Bool) (l : List α) (i : Nat) (x : α)
    (h : l.countP p = 0) : (l.set i x).countP p ≤ 1 := by
  induction l generalizing i with
  | nil => simp [List.set_nil, List.countP_nil]
  | cons a l ih =>
    rw [List.countP_cons] at h
    have ha : p a = false := by
      by_cases hb : p a = true
      · simp [hb] at h
      · simpa using hb
    have hl : l.countP p = 0 := by omega
    cases i with
    | zero =>
      rw [List.set_cons_zero, List.countP_cons, hl]
      split <;> omega
    | succ n =>
      rw [List.set_cons_succ, List.countP_cons]
      have h2 := ih n hl
      simp only [ha, Bool.false_eq_true, if_false]
      omega

theorem countP_set_findIdx_le_one {α : Type} (p : α → Bool) (l : List α) (x y : α)
    (hf : l.find? p = some y) (h : l.countP p ≤ 1) :
    (l.set (l.findIdx p) x).countP p ≤ 1 := by
  induction l with
  | nil => simp [List.find?] at hf
  | cons a l ih =>
    rw [List.countP_cons] at h
    by_cases ha : p a = true
    · have hidx : (a :: l).findIdx p = 0 := by simp [List.findIdx_cons, ha]
      rw [hidx, List.set_cons_zero, List.countP_cons]
      have hl : l.countP p = 0 := by
        simp only [ha, if_true] at h; omega
      rw [hl]
      split <;> omega
    · have ha2 : p a = false := by simpa using ha
      have hf2 : l.find? p = some y := by
        rw [List.find?_cons] at hf
        simpa [ha2] using hf
      have hidx : (a :: l).findIdx p = l.findIdx p + 1 := by
        simp [List.findIdx_cons, ha2]
      have hl : l.countP p ≤ 1 := by
        simp only [ha2] at h; omega
      have h2 := ih hf2 hl
      rw [hidx, List.set_cons_succ, List.countP_cons]
      simp only [ha2, Bool.false_eq_true, if_false]
      omega

theorem countP_zero_of_find?_eq_none {α : Type} (p : α → Bool) (l : List α)
    (h : l.find? p = none) : l.countP p = 0 := by
  rw [List.countP_eq_zero]
  intro a ha
  exact List.find?_eq_none.mp h a ha

/-! Claim theorems. -/

/-- C4: shallow merge precedence — for every field present in the later
spread source the result takes that value, fields absent there fall
through to the earlier source, and with three sources the latest present
source wins field by field. -/
theorem c4_merge_precedence :
    (∀ (a b : JsObj) (k : String),
        ((getV b k).isSome = true → getV (spread a b) k = getV b k)
      ∧ (getV b k = none → getV (spread a b) k = getV a k))
    ∧ ∀ (a b c : JsObj) (k : String),
        ((getV c k).isSome = true → getV (spread (spread a b) c) k = getV c k)
      ∧ (getV c k = none → (getV b k).isSome = true →
          getV (spread (spread a b) c) k = getV b k)
      ∧ (getV c k = none → getV b k = none →
          getV (spread (spread a b) c) k = getV a k) := by
  constructor
  · intro a b k
    constructor
    · intro h
      rw [spread, getV_append]
      cases hb : getV b k with
      | none => rw [hb] at h; simp at h
      | some v => simp
    · intro h
      rw [spread, getV_append, h]
      simp
  · intro a b c k
    refine ⟨?_, ?_, ?_⟩
    · intro h
      rw [spread, spread, getV_append]
      cases hc : getV c k with
      | none => rw [hc] at h; simp at h
      | some v => simp
    · intro hc hb
      rw [spread, spread, getV_append, getV_append, hc]
      cases hb2 : getV b k with
      | none => rw [hb2] at hb; simp at hb
      | some v => simp
    · intro hc hb
      rw [spread, spread, getV_append, getV_append, hc, hb]
      simp

/-- C4 witness at concrete records. -/
theorem c4_merge_precedence_witness :
    (getV [("x", Val.str "b")] "x").isSome = true
    ∧ getV (spread [("x", Val.str "a"), ("y", Val.str "a")] [("x", Val.str "b")]) "x" =
        getV [("x", Val.str "b")] "x"
    ∧ getV [("x", Val.str "b")] "y" = none
    ∧ getV (spread [("x", Val.str "a"), ("y", Val.str "a")] [("x", Val.str "b")]) "y" =
        getV [("x", Val.str "a"), ("y", Val.str "a")] "y" :=
  ⟨rfl,
   (c4_merge_precedence.1 [("x", Val.str "a"), ("y", Val.str "a")] [("x", Val.str "b")] "x").1
     rfl,
   rfl,
   (c4_merge_precedence.1 [("x", Val.str "a"), ("y", Val.str "a")] [("x", Val.str "b")] "y").2
     rfl⟩

/-- C5: the identity key is the literal pipe-joined concatenation of the
username, email and submittedAt fields, and is a pure function of those
three fields. -/
theorem c5_identity_key :
    (∀ s1 s2 : JsObj, propV s1 "username" = propV s2 "username" →
      propV s1 "email" = propV s2 "email" →
      propV s1 "submittedAt" = propV s2 "submittedAt" →
      identityKey s1 = identityKey s2)
    ∧ ∀ (sub : JsObj) (u e t : String), propV sub "username" = Val.str u →
        propV sub "email" = Val.str e → propV sub "submittedAt" = Val.str t →
        identityKey sub = u ++ "|" ++ e ++ "|" ++ t := by
  constructor
  · intro s1 s2 h1 h2 h3
    rw [identityKey, identityKey, h1, h2, h3]
  · intro sub u e t h1 h2 h3
    rw [identityKey, h1, h2, h3]
    rfl

/-- C5 witness at a concrete record. -/
theorem c5_identity_key_witness :
    identityKey
        [("username", Val.str "alice"), ("email", Val.str "a@x.com"),
         ("submittedAt", Val.str "2024-01-01T00:00:00Z")] =
      "alice" ++ "|" ++ "a@x.com" ++ "|" ++ "2024-01-01T00:00:00Z" :=
  c5_identity_key.2
    [("username", Val.str "alice"), ("email", Val.str "a@x.com"),
     ("submittedAt", Val.str "2024-01-01T00:00:00Z")]
    "alice" "a@x.com" "2024-01-01T00:00:00Z" rfl rfl rfl

/-- Concrete original submission used by the witnesses. -/
def wOrig : JsObj :=
  [("username", Val.str "alice"), ("email", Val.str "a@x.com"),
   ("submittedAt", Val.str "2024-01-01T00:00:00Z"),
   ("cases", Val.arr [Val.obj [("group", Val.str "g1")]])]

/-- Identity key of the witness original submission. -/
def wId : String := "alice|a@x.com|2024-01-01T00:00:00Z"

/-- Concrete edit request used by the witnesses. -/
def wCall : EditCall :=
  { editedData := [("note", Val.str "edited")], facilitatorComment := some " ok "
    editedBy := "fac@x.com", now1 := "T1", now2 := "T2", nowComment := "T3" }

/-- Store after one witness edit call: the original plus one edited
version. -/
def wStore2 : List JsObj := stepStore [wOrig] wId wCall

/-- The edited version present in the second witness store. -/
def wEdited : JsObj := newEditedVersionRecord wOrig wId wCall

/-- C6: the edit endpoint fails with 404 exactly when no loaded
submission has the requested identity key, and on that failure the
stored collection is unchanged. -/
theorem c6_not_found_iff (store : List JsObj) (id : String) (c : EditCall) :
    (saveEditedSubmission store id c = EditOutcome.notFound ↔
      ∀ sub ∈ store, ¬ identityKey sub = id)
    ∧ (saveEditedSubmission store id c = EditOutcome.notFound →
      stepStore store id c = store) := by
  have key : saveEditedSubmission store id c = EditOutcome.notFound ↔
      store.find? (isOriginalFor id) = none := by
    constructor
    · intro h
      cases hf : store.find? (isOriginalFor id) with
      | none => rfl
      | some orig =>
        rw [saveEditedSubmission, hf] at h
        cases hf2 : store.find? (isExistingEditedFor id) with
        | some ee => rw [hf2] at h; exact EditOutcome.noConfusion h
        | none =>
          rw [hf2] at h
          cases hf3 : store.find? (isEditingEditedVersionFor id) with
          | some t => rw [hf3] at h; exact EditOutcome.noConfusion h
          | none => rw [hf3] at h; exact EditOutcome.noConfusion h
    · intro h
      rw [saveEditedSubmission, h]
  constructor
  · rw [key, List.find?_eq_none]
    constructor
    · intro h sub hs
      simpa [isOriginalFor] using h sub hs
    · intro h sub hs
      simpa [isOriginalFor] using h sub hs
  · intro h
    simp [stepStore, h]

/-- C6 witness: on the empty collection the endpoint reports 404 and the
collection is unchanged. -/
theorem c6_not_found_iff_witness : stepStore [] wId wCall = [] :=
  (c6_not_found_iff [] wId wCall).2 rfl

/-- C2: when the original exists and no edited version is recorded for
the id nor addressed by it, the endpoint appends exactly one new record,
the shallow merge of the original under the edited data with the five
version fields set, and reports a new version. -/
theorem c2_new_version_append (store : List JsObj) (id : String) (c : EditCall)
    (originalSubmission : JsObj)
    (hOrig : store.find? (isOriginalFor id) = some originalSubmission)
    (hNoEdited : store.find? (isExistingEditedFor id) = none)
    (hNoEditOfEdit : store.find? (isEditingEditedVersionFor id) = none) :
    saveEditedSubmission store id c =
      EditOutcome.ok (store ++ [newEditedVersionRecord originalSubmission id c])
        (attachFacilitatorComment (newEditedVersionRecord originalSubmission id c) c) true
    ∧ (store ++ [newEditedVersionRecord originalSubmission id c]).length = store.length + 1
    ∧ getV (newEditedVersionRecord originalSubmission id c) "submittedAt" =
        some (Val.str c.now1)
    ∧ getV (newEditedVersionRecord originalSubmission id c) "isEditedVersion" =
        some (Val.bool true)
    ∧ getV (newEditedVersionRecord originalSubmission id c) "originalSubmissionId" =
        some (Val.str id)
    ∧ getV (newEditedVersionRecord originalSubmission id c) "editedBy" =
        some (Val.str (orUnknown c.editedBy))
    ∧ getV (newEditedVersionRecord originalSubmission id c) "editTimestamp" =
        some (Val.str c.now2)
    ∧ ∀ k : String, k ≠ "submittedAt" → k ≠ "isEditedVersion" →
        k ≠ "originalSubmissionId" → k ≠ "editedBy" → k ≠ "editTimestamp" →
        getV (newEditedVersionRecord originalSubmission id c) k =
          (getV c.editedData k).or (getV originalSubmission k) := by
  refine ⟨?_, by simp, rfl, rfl, rfl, rfl, rfl, ?_⟩
  · rw [saveEditedSubmission, hOrig, hNoEdited, hNoEditOfEdit]
  · intro k h1 h2 h3 h4 h5
    rw [newEditedVersionRecord]
    simp only [getV, Ne.symm h1, Ne.symm h2, Ne.symm h3, Ne.symm h4, Ne.symm h5,
      if_false, getV_append]

/-- C2 witness: a concrete call with no existing edited version appends
one record and reports a new version. -/
theorem c2_new_version_append_witness :
    saveEditedSubmission [wOrig] wId wCall =
      EditOutcome.ok ([wOrig] ++ [newEditedVersionRecord wOrig wId wCall])
        (attachFacilitatorComment (newEditedVersionRecord wOrig wId wCall) wCall) true :=
  (c2_new_version_append [wOrig] wId wCall wOrig rfl rfl rfl).1

/-- C3: when an edited version is already recorded for the id, the
endpoint replaces it in place at its index with the shallow merge of the
original, the prior edited version and the edited data, stamped with a
fresh editTimestamp and editedBy; the store size is unchanged and the
response flag is not-new-version. -/
theorem c3_replace_in_place (store : List JsObj) (id : String) (c : EditCall)
    (originalSubmission existingEditedVersion : JsObj)
    (hOrig : store.find? (isOriginalFor id) = some originalSubmission)
    (hEdited : store.find? (isExistingEditedFor id) = some existingEditedVersion) :
    saveEditedSubmission store id c =
      EditOutcome.ok
        (store.set (store.findIdx (isExistingEditedFor id))
          (updatedExistingEditedRecord originalSubmission existingEditedVersion c))
        (attachFacilitatorComment
          (updatedExistingEditedRecord originalSubmission existingEditedVersion c) c) false
    ∧ (store.set (store.findIdx (isExistingEditedFor id))
        (updatedExistingEditedRecord originalSubmission existingEditedVersion c)).length =
        store.length
    ∧ getV (updatedExistingEditedRecord originalSubmission existingEditedVersion c)
        "editTimestamp" = some (Val.str c.now1)
    ∧ getV (updatedExistingEditedRecord originalSubmission existingEditedVersion c)
        "editedBy" = some (Val.str (orUnknown c.editedBy))
    ∧ ∀ k : String, k ≠ "editTimestamp" → k ≠ "editedBy" →
        getV (updatedExistingEditedRecord originalSubmission existingEditedVersion c) k =
          (getV c.editedData k).or
            ((getV existingEditedVersion k).or (getV originalSubmission k)) := by
  refine ⟨?_, by simp, rfl, rfl, ?_⟩
  · rw [saveEditedSubmission, hOrig, hEdited]
  · intro k h1 h2
    rw [updatedExistingEditedRecord]
    simp only [getV, Ne.symm h1, Ne.symm h2, if_false, getV_append, Option.or_assoc]

/-- C3 witness: repeating the witness edit with different data replaces
the single edited version in place and reports not-new-version. -/
theorem c3_replace_in_place_witness :
    saveEditedSubmission wStore2 wId { wCall with editedData := [("note2", Val.str "x")] } =
      EditOutcome.ok
        (wStore2.set (wStore2.findIdx (isExistingEditedFor wId))
          (updatedExistingEditedRecord wOrig wEdited
            { wCall with editedData := [("note2", Val.str "x")] }))
        (attachFacilitatorComment
          (updatedExistingEditedRecord wOrig wEdited
            { wCall with editedData := [("note2", Val.str "x")] })
          { wCall with editedData := [("note2", Val.str "x")] }) false :=
  (c3_replace_in_place wStore2 wId { wCall with editedData := [("note2", Val.str "x")] }
    wOrig wEdited rfl rfl).1

/-- Each edit request against one id keeps the number of edited versions
recorded for that id at or below one. -/
theorem editedCountFor_stepStore_le (store : List JsObj) (id : String) (c : EditCall)
    (h : editedCountFor id store ≤ 1) : editedCountFor id (stepStore store id c) ≤ 1 := by
  rw [stepStore, saveEditedSubmission]
  cases hf : store.find? (isOriginalFor id) with
  | none => exact h
  | some orig =>
    cases hf2 : store.find? (isExistingEditedFor id) with
    | some ee =>
      exact countP_set_findIdx_le_one (isExistingEditedFor id) store _ ee hf2 h
    | none =>
      have hz : store.countP (isExistingEditedFor id) = 0 :=
        countP_zero_of_find?_eq_none _ _ hf2
      cases hf3 : store.find? (isEditingEditedVersionFor id) with
      | some t =>
        exact countP_set_of_countP_zero (isExistingEditedFor id) store _ _ hz
      | none =>
        rw [editedCountFor, List.countP_append, hz]
        have : List.countP (isExistingEditedFor id) [newEditedVersionRecord orig id c] ≤ 1 := by
          rw [List.countP_cons, List.countP_nil]
          split <;> omega
        omega

/-- C1: starting from a store with no edited version for the id, any
sequence of edit requests against that same id leaves at most one
record that is an edited version for it. -/
theorem c1_single_edited_version (store : List JsObj) (id : String) (calls : List EditCall)
    (h : editedCountFor id store = 0) :
    editedCountFor id (runEdits store id calls) ≤ 1 := by
  have h1 : editedCountFor id store ≤ 1 := by omega
  clear h
  induction calls generalizing store with
  | nil => simpa [runEdits] using h1
  | cons c cs ih => exact ih _ (editedCountFor_stepStore_le _ _ _ h1)

/-- C1 witness: three identical edit calls against the witness original
leave exactly at most one edited version. -/
theorem c1_single_edited_version_witness :
    editedCountFor wId (runEdits [wOrig] wId [wCall, wCall, wCall]) ≤ 1 :=
  c1_single_edited_version [wOrig] wId [wCall, wCall, wCall] rfl

/-- C7: when a facilitator comment is supplied and is non-empty after
trimming, the comment fields are attached to the in-memory result object
only after the store write, so the persisted collection written by the
call carries none of the three comment fields; they appear only on the
response-side object. -/
theorem c7_comment_not_persisted (store : List JsObj) (id : String) (c : EditCall)
    (fc : String) (saved : List JsObj) (result : JsObj) (isNew : Bool)
    (hfc : c.facilitatorComment = some fc)
    (htrim : jsTrim fc ≠ "")
    (hok : saveEditedSubmission store id c = EditOutcome.ok saved result isNew)
    (hstore : ∀ r ∈ store, getV r "facilitatorComment" = none ∧
      getV r "facilitatorCommentTimestamp" = none ∧ getV r "facilitatorCommentBy" = none)
    (hdata : getV c.editedData "facilitatorComment" = none ∧
      getV c.editedData "facilitatorCommentTimestamp" = none ∧
      getV c.editedData "facilitatorCommentBy" = none) :
    (∀ r ∈ saved, getV r "facilitatorComment" = none ∧
      getV r "facilitatorCommentTimestamp" = none ∧ getV r "facilitatorCommentBy" = none)
    ∧ getV result "facilitatorComment" = some (Val.str fc)
    ∧ getV result "facilitatorCommentTimestamp" = some (Val.str c.nowComment)
    ∧ getV result "facilitatorCommentBy" = some (Val.str (orUnknown c.editedBy)) := by
  have hfcne : fc ≠ "" := by
    intro h
    rw [h] at htrim
    exact htrim rfl
  have hguard : (fc != "" && jsTrim fc != "") = true := by
    simp [bne_iff_ne, hfcne, htrim]
  have hattach : ∀ r : JsObj, attachFacilitatorComment r c =
      ("facilitatorComment", Val.str fc) ::
        ("facilitatorCommentTimestamp", Val.str c.nowComment) ::
        ("facilitatorCommentBy", Val.str (orUnknown c.editedBy)) :: r := by
    intro r
    rw [attachFacilitatorComment, hfc]
    simp only [hguard, if_true]
  have hresult : ∀ r : JsObj,
      getV (attachFacilitatorComment r c) "facilitatorComment" = some (Val.str fc)
      ∧ getV (attachFacilitatorComment r c) "facilitatorCommentTimestamp" =
          some (Val.str c.nowComment)
      ∧ getV (attachFacilitatorComment r c) "facilitatorCommentBy" =
          some (Val.str (orUnknown c.editedBy)) := by
    intro r
    rw [hattach r]
    refine ⟨rfl, ?_, ?_⟩ <;> simp [getV]
  rw [saveEditedSubmission] at hok
  cases hf : store.find? (isOriginalFor id) with
  | none => rw [hf] at hok; exact EditOutcome.noConfusion hok
  | some orig =>
    rw [hf] at hok
    have horig := hstore orig (List.mem_of_find?_eq_some hf)
    cases hf2 : store.find? (isExistingEditedFor id) with
    | some ee =>
      rw [hf2] at hok
      have hee := hstore ee (List.mem_of_find?_eq_some hf2)
      rw [EditOutcome.ok.injEq] at hok
      obtain ⟨hsaved, hres, _⟩ := hok
      have hn : getV (updatedExistingEditedRecord orig ee c) "facilitatorComment" = none
          ∧ getV (updatedExistingEditedRecord orig ee c) "facilitatorCommentTimestamp" = none
          ∧ getV (updatedExistingEditedRecord orig ee c) "facilitatorCommentBy" = none := by
        rw [updatedExistingEditedRecord]
        refine ⟨?_, ?_, ?_⟩ <;>
          simp [getV, getV_append, horig.1, horig.2.1, horig.2.2,
            hee.1, hee.2.1, hee.2.2, hdata.1, hdata.2.1, hdata.2.2]
      refine ⟨?_, ?_⟩
      · intro r hr
        rw [← hsaved] at hr
        rcases List.mem_or_eq_of_mem_set hr with hmem | heq
        · exact hstore r hmem
        · rw [heq]; exact hn
      · rw [← hres]
        exact hresult _
    | none =>
      rw [hf2] at hok
      cases hf3 : store.find? (isEditingEditedVersionFor id) with
      | some t =>
        rw [hf3] at hok
        have ht := hstore t (List.mem_of_find?_eq_some hf3)
        rw [EditOutcome.ok.injEq] at hok
        obtain ⟨hsaved, hres, _⟩ := hok
        have hn : getV (updatedEditOfEditRecord t c) "facilitatorComment" = none
            ∧ getV (updatedEditOfEditRecord t c) "facilitatorCommentTimestamp" = none
            ∧ getV (updatedEditOfEditRecord t c) "facilitatorCommentBy" = none := by
          rw [updatedEditOfEditRecord]
          refine ⟨?_, ?_, ?_⟩ <;>
            simp [getV, getV_append, ht.1, ht.2.1, ht.2.2, hdata.1, hdata.2.1, hdata.2.2]
        refine ⟨?_, ?_⟩
        · intro r hr
          rw [← hsaved] at hr
          rcases List.mem_or_eq_of_mem_set hr with hmem | heq
          · exact hstore r hmem
          · rw [heq]; exact hn
        · rw [← hres]
          exact hresult _
      | none =>
        rw [hf3] at hok
        rw [EditOutcome.ok.injEq] at hok
        obtain ⟨hsaved, hres, _⟩ := hok
        have hn : getV (newEditedVersionRecord orig id c) "facilitatorComment" = none
            ∧ getV (newEditedVersionRecord orig id c) "facilitatorCommentTimestamp" = none
            ∧ getV (newEditedVersionRecord orig id c) "facilitatorCommentBy" = none := by
          rw [newEditedVersionRecord]
          refine ⟨?_, ?_, ?_⟩ <;>
            simp [getV, getV_append, horig.1, horig.2.1, horig.2.2,
              hdata.1, hdata.2.1, hdata.2.2]
        refine ⟨?_, ?_⟩
        · intro r hr
          rw [← hsaved] at hr
          rcases List.mem_append.mp hr with hmem | heq
          · exact hstore r hmem
          · rw [List.mem_singleton] at heq
            rw [heq]; exact hn
        · rw [← hres]
          exact hresult _

/-- C7 witness: the witness call carries the comment on the response
object while the record it persisted has no comment field. -/
theorem c7_comment_not_persisted_witness :
    getV (attachFacilitatorComment (newEditedVersionRecord wOrig wId wCall) wCall)
        "facilitatorComment" = some (Val.str " ok ")
    ∧ getV (newEditedVersionRecord wOrig wId wCall) "facilitatorComment" = none :=
  ⟨(c7_comment_not_persisted [wOrig] wId wCall " ok "
      ([wOrig] ++ [newEditedVersionRecord wOrig wId wCall])
      (attachFacilitatorComment (newEditedVersionRecord wOrig wId wCall) wCall) true
      rfl (by decide) rfl
      (by intro r hr; rw [List.mem_singleton] at hr; rw [hr]; exact ⟨rfl, rfl, rfl⟩)
      ⟨rfl, rfl, rfl⟩).2.1,
   ((c7_comment_not_persisted [wOrig] wId wCall " ok "
      ([wOrig] ++ [newEditedVersionRecord wOrig wId wCall])
      (attachFacilitatorComment (newEditedVersionRecord wOrig wId wCall) wCall) true
      rfl (by decide) rfl
      (by intro r hr; rw [List.mem_singleton] at hr; rw [hr]; exact ⟨rfl, rfl, rfl⟩)
      ⟨rfl, rfl, rfl⟩).1 (newEditedVersionRecord wOrig wId wCall)
      (by simp)).1⟩

theorem jsGet_of_getV_propV (r old : JsObj) (k : String)
    (h : getV r k = some (propV old k)) : jsGet r k = jsGet old k := by
  unfold jsGet
  rw [h]
  unfold propV
  cases h2 : getV old k with
  | none => rfl
  | some v => cases v <;> rfl

theorem jsGet_congr (r1 r2 : JsObj) (k : String) (h : getV r1 k = getV r2 k) :
    jsGet r1 k = jsGet r2 k := by
  unfold jsGet
  rw [h]

/-- C8 counterexample: the claim extends the never-fails loader contract
to the edit-reconciliation request, but on an absent backing file that
request aborts (the direct read at source line 413 throws and the
handler responds 500) instead of proceeding on the empty collection the
loader would return. -/
theorem c8_edit_path_bypasses_load :
    saveEditedSubmissionOnFile (fun _ => none) FileState.absent wId wCall = none
    ∧ saveEditedSubmissionOnFile (fun _ => none) FileState.absent wId wCall ≠
        some (saveEditedSubmission
          (loadFocusGroupSubmissions (fun _ => none) FileState.absent) wId wCall) := by
  refine ⟨rfl, ?_⟩
  intro h
  exact Option.noConfusion h

/-- C8 amended: the loader itself is total, returning the empty
collection when the file is absent or its content fails to parse, and
the parsed collection otherwise; the edit-reconciliation request however
bypasses the loader, aborting with a generic failure whenever the file
is absent or unparseable, and behaving as the engine on the parsed
collection otherwise. -/
theorem c8_load_never_fails_amended (parse : String → Option (List JsObj)) :
    loadFocusGroupSubmissions parse FileState.absent = []
    ∧ (∀ s, parse s = none → loadFocusGroupSubmissions parse (FileState.content s) = [])
    ∧ (∀ s subs, parse s = some subs →
        loadFocusGroupSubmissions parse (FileState.content s) = subs)
    ∧ (∀ id c, saveEditedSubmissionOnFile parse FileState.absent id c = none)
    ∧ (∀ s id c, parse s = none →
        saveEditedSubmissionOnFile parse (FileState.content s) id c = none)
    ∧ (∀ s subs id c, parse s = some subs →
        saveEditedSubmissionOnFile parse (FileState.content s) id c =
          some (saveEditedSubmission subs id c)) := by
  refine ⟨rfl, ?_, ?_, fun id c => rfl, ?_, ?_⟩ <;> intros <;>
    simp [loadFocusGroupSubmissions, saveEditedSubmissionOnFile, *]

/-- C8 witness: a parser that always fails stands in for an unreadable
or unparseable file. -/
theorem c8_load_never_fails_amended_witness :
    loadFocusGroupSubmissions (fun _ => none) (FileState.content "bad json") = []
    ∧ saveEditedSubmissionOnFile (fun _ => none) (FileState.content "bad json") wId wCall =
        none :=
  ⟨(c8_load_never_fails_amended (fun _ => none)).2.1 "bad json" rfl,
   (c8_load_never_fails_amended (fun _ => none)).2.2.2.2.1 "bad json" wId wCall rfl⟩

/-- C10: a successful update keeps the previous id and submittedAt even
when the request body supplies them, stamps updatedAt, and overwrites
every other supplied field; the store size is unchanged. -/
theorem c10_update_preserves_id (store : List JsObj) (id : String) (updateFields : JsObj)
    (now : String) (old : JsObj)
    (hfind : store.find? (fun s => valIsStr (propV s "id") id) = some old)
    (hstatus : valIsStr (propV old "status") "pending" = true) :
    updateCaseStudy store id updateFields now =
      UpdateOutcome.ok
        (store.set (store.findIdx (fun s => valIsStr (propV s "id") id))
          (updatedCaseRecord old updateFields now))
        (updatedCaseRecord old updateFields now)
    ∧ jsGet (updatedCaseRecord old updateFields now) "id" = jsGet old "id"
    ∧ jsGet (updatedCaseRecord old updateFields now) "submittedAt" = jsGet old "submittedAt"
    ∧ getV (updatedCaseRecord old updateFields now) "updatedAt" = some (Val.str now)
    ∧ (store.set (store.findIdx (fun s => valIsStr (propV s "id") id))
        (updatedCaseRecord old updateFields now)).length = store.length
    ∧ ∀ k : String, k ≠ "id" → k ≠ "submittedAt" → k ≠ "updatedAt" →
        ((getV updateFields k).isSome = true →
          jsGet (updatedCaseRecord old updateFields now) k = jsGet updateFields k)
      ∧ (getV updateFields k = none →
          jsGet (updatedCaseRecord old updateFields now) k = jsGet old k) := by
  refine ⟨?_, ?_, ?_, rfl, by simp, ?_⟩
  · rw [updateCaseStudy, hfind]
    simp only [hstatus, Bool.not_true, Bool.false_eq_true, if_false]
  · exact jsGet_of_getV_propV _ old "id" rfl
  · exact jsGet_of_getV_propV _ old "submittedAt" rfl
  · intro k h1 h2 h3
    have hgv : getV (updatedCaseRecord old updateFields now) k =
        (getV updateFields k).or (getV old k) := by
      rw [updatedCaseRecord]
      simp only [getV, Ne.symm h1, Ne.symm h2, Ne.symm h3, if_false, getV_append]
    constructor
    · intro hs
      cases hv : getV updateFields k with
      | none => rw [hv] at hs; exact absurd hs (by simp)
      | some v =>
        refine jsGet_congr _ _ k ?_
        rw [hgv, hv]
        rfl
    · intro hs
      refine jsGet_congr _ _ k ?_
      rw [hgv, hs]
      rfl

/-- C10 witness: a body trying to overwrite id and submittedAt does not
change them in the stored record. -/
theorem c10_update_preserves_id_witness :
    jsGet (updatedCaseRecord
        [("id", Val.str "99"), ("status", Val.str "pending"), ("submittedAt", Val.str "S0")]
        [("id", Val.str "HACK"), ("submittedAt", Val.str "H2"), ("title", Val.str "new")]
        "NOW") "id" =
      jsGet [("id", Val.str "99"), ("status", Val.str "pending"),
        ("submittedAt", Val.str "S0")] "id" :=
  (c10_update_preserves_id
    [[("id", Val.str "99"), ("status", Val.str "pending"), ("submittedAt", Val.str "S0")]]
    "99"
    [("id", Val.str "HACK"), ("submittedAt", Val.str "H2"), ("title", Val.str "new")]
    "NOW"
    [("id", Val.str "99"), ("status", Val.str "pending"), ("submittedAt", Val.str "S0")]
    rfl rfl).2.1

theorem foldlM_except_preserve {α σ : Type} (f : σ → α → Except Unit σ) (Q : σ → Prop)
    (hf : ∀ s a s2, Q s → f s a = Except.ok s2 → Q s2) :
    ∀ (l : List α) (s out : σ), Q s → l.foldlM f s = Except.ok out → Q out := by
  intro l
  induction l with
  | nil =>
    intro s out hQ h
    have hs : s = out := by
      have h2 : (Except.ok s : Except Unit σ) = Except.ok out := h
      rwa [Except.ok.injEq] at h2
    rw [← hs]
    exact hQ
  | cons a l ih =>
    intro s out hQ h
    rw [List.foldlM_cons] at h
    cases hfa : f s a with
    | error e =>
      rw [hfa] at h
      exact Except.noConfusion h
    | ok s2 =>
      rw [hfa] at h
      exact ih s2 out (hf s a s2 hQ hfa) h

theorem scanTensionItem_preserve (src : String) (subDate : Val)
    (st : List Val × List TensionDetail) (ti : Val)
    (st2 : List Val × List TensionDetail)
    (hQ : ∀ d ∈ st.2, includesStr predefinedTensions d.value = false)
    (h : scanTensionItem src subDate st ti = Except.ok st2) :
    ∀ d ∈ st2.2, includesStr predefinedTensions d.value = false := by
  rw [scanTensionItem] at h
  split at h
  · exact Except.noConfusion h
  · rename_i v hv
    split at h
    · rename_i hg
      split at h
      · exact Except.noConfusion h
      · rename_i d hd
        rw [Except.ok.injEq] at h
        have hdns : includesStr predefinedTensions v = false := by
          have h2 := ((Bool.and_eq_true _ _).mp hg).2
          simpa using h2
        intro x hx
        rw [← h] at hx
        simp only at hx
        rcases List.mem_append.mp hx with hmem | hone
        · exact hQ x hmem
        · rw [List.mem_singleton] at hone
          rw [hone]
          exact hdns
    · rw [Except.ok.injEq] at h
      rw [← h]
      exact hQ

theorem scanCaseItem_preserve (src : String) (subDate : Val)
    (st : List Val × List TensionDetail) (ci : Val)
    (st2 : List Val × List TensionDetail)
    (hQ : ∀ d ∈ st.2, includesStr predefinedTensions d.value = false)
    (h : scanCaseItem src subDate st ci = Except.ok st2) :
    ∀ d ∈ st2.2, includesStr predefinedTensions d.value = false := by
  rw [scanCaseItem] at h
  split at h
  · exact Except.noConfusion h
  · split at h
    · rename_i ts hts
      exact foldlM_except_preserve (scanTensionItem src subDate)
        (fun s => ∀ d ∈ s.2, includesStr predefinedTensions d.value = false)
        (fun s a s2 hs ha => scanTensionItem_preserve src subDate s a s2 hs ha)
        ts st st2 hQ h
    · rw [Except.ok.injEq] at h
      rw [← h]
      exact hQ

theorem scanSub_preserve (src : String)
    (st : List Val × List TensionDetail) (sub : JsObj)
    (st2 : List Val × List TensionDetail)
    (hQ : ∀ d ∈ st.2, includesStr predefinedTensions d.value = false)
    (h : scanSub src st sub = Except.ok st2) :
    ∀ d ∈ st2.2, includesStr predefinedTensions d.value = false := by
  rw [scanSub] at h
  split at h
  · rename_i cs hcs
    exact foldlM_except_preserve (scanCaseItem src (propV sub "submittedAt"))
      (fun s => ∀ d ∈ s.2, includesStr predefinedTensions d.value = false)
      (fun s a s2 hs ha => scanCaseItem_preserve src (propV sub "submittedAt") s a s2 hs ha)
      cs st st2 hQ h
  · rw [Except.ok.injEq] at h
    rw [← h]
    exact hQ

/-- C9: no entry of a successful tension history report carries a value
from the predefined tension exclusion set — in particular never the
string Privacy vs. Transparency — whatever the two collections and the
requested email contain. -/
theorem c9_tension_exclusion (fg ind : List JsObj) (email : String)
    (details : List TensionDetail)
    (h : userTensionHistory fg ind email = Except.ok details) :
    ∀ d ∈ details, includesStr predefinedTensions d.value = false
      ∧ d.value ≠ Val.str "Privacy vs. Transparency" := by
  rw [userTensionHistory] at h
  split at h
  · exact Except.noConfusion h
  · rename_i st1 h1
    split at h
    · exact Except.noConfusion h
    · rename_i st2 h2
      rw [Except.ok.injEq] at h
      have hq1 : ∀ d ∈ st1.2, includesStr predefinedTensions d.value = false :=
        foldlM_except_preserve (scanSub "focus-group")
          (fun s => ∀ d ∈ s.2, includesStr predefinedTensions d.value = false)
          (fun s a s2 hs ha => scanSub_preserve "focus-group" s a s2 hs ha)
          _ _ st1 (by intro d hd; exact absurd hd (List.not_mem_nil d)) h1
      have hq2 : ∀ d ∈ st2.2, includesStr predefinedTensions d.value = false :=
        foldlM_except_preserve (scanSub "individual")
          (fun s => ∀ d ∈ s.2, includesStr predefinedTensions d.value = false)
          (fun s a s2 hs ha => scanSub_preserve "individual" s a s2 hs ha)
          _ st1 st2 hq1 h2
      intro d hd
      rw [← h] at hd
      refine ⟨hq2 d hd, ?_⟩
      intro hval
      have := hq2 d hd
      rw [hval] at this
      exact absurd this (by simp [includesStr, predefinedTensions])

/-- C9 witness: a collection containing the predefined tension twice and
a custom tension yields a report with only the custom tension. -/
theorem c9_tension_exclusion_witness :
    includesStr predefinedTensions (Val.str "Custom T") = false
    ∧ Val.str "Custom T" ≠ Val.str "Privacy vs. Transparency" :=
  c9_tension_exclusion
    [[("email", Val.str "u@x.com"), ("submittedAt", Val.str "D1"),
      ("cases", Val.arr [Val.obj [("tensions", Val.arr
        [Val.obj [("value", Val.str "Privacy vs. Transparency")],
         Val.obj [("value", Val.str "Custom T"), ("definition", Val.str "d1")],
         Val.obj [("value", Val.str "Privacy vs. Transparency")]])]])]]
    [] "u@x.com"
    [⟨Val.str "Custom T", Val.str "d1", "focus-group", Val.str "D1"⟩]
    rfl
    ⟨Val.str "Custom T", Val.str "d1", "focus-group", Val.str "D1"⟩
    (List.mem_singleton.mpr rfl)
